import Mathlib

/-!
Verification of the version-comparison and changelog-validation core of the
orbit auxiliary tooling scripts (tools/evalver.py and tools/autocl.py).

Python strings are modelled as List Char, Python None as Option, and a Python
exception escaping a function as an Except error value.  Every function below
is a direct shallow embedding of the corresponding Python function; the
Python unit tests of the two scripts are replayed as example checks.
-/

namespace Orbit

/-- Exceptions that the embedded Python code can raise: ValueError from a
failed int() conversion, IndexError from an out-of-range subscript. -/
inductive PyErr where
  | valueError
  | indexError
deriving DecidableEq, Repr

instance instDecEqExcept {ε α : Type} [DecidableEq ε] [DecidableEq α] :
    DecidableEq (Except ε α) := fun x y =>
  match x, y with
  | .ok a, .ok b =>
    if h : a = b then .isTrue (by rw [h]) else .isFalse (by simp [h])
  | .error a, .error b =>
    if h : a = b then .isTrue (by rw [h]) else .isFalse (by simp [h])
  | .ok _, .error _ => .isFalse (by simp)
  | .error _, .ok _ => .isFalse (by simp)

/-- Characters treated as whitespace by Python str.strip() and str.split()
with no separator (ASCII range, which covers all inputs of these scripts). -/
def isPySpace (c : Char) : Bool :=
  c = ' ' || c = '\t' || c = '\n' || c = '\r' || c = '\x0b' || c = '\x0c'

/-- Python str.strip(): drop leading and trailing whitespace. -/
def pyStrip (s : List Char) : List Char :=
  ((s.dropWhile isPySpace).reverse.dropWhile isPySpace).reverse

/-- Python str.strip(q) for a one-character argument q: drop every leading
and trailing occurrence of the character q. -/
def pyStripChar (q : Char) (s : List Char) : List Char :=
  ((s.dropWhile (· = q)).reverse.dropWhile (· = q)).reverse

/-- Splits a list at the first occurrence of the separator character:
returns the part before it and the part after it, or none if absent. -/
def breakAtSep (sep : Char) : List Char → Option (List Char × List Char)
  | [] => none
  | c :: cs =>
    if c = sep then some ([], cs)
    else
      match breakAtSep sep cs with
      | none => none
      | some (p, q) => some (c :: p, q)

/-- Python s.split(sep, maxsplit) for a one-character separator: at most
maxsplit splits, each at the leftmost remaining separator. -/
def pySplit (sep : Char) : Nat → List Char → List (List Char)
  | 0, s => [s]
  | n + 1, s =>
    match breakAtSep sep s with
    | none => [s]
    | some (p, q) => p :: pySplit sep n q

/-- Numeric value of a list of decimal digit characters (most significant
first), as accumulated left to right. -/
def digitsToNat (s : List Char) : Nat :=
  s.foldl (fun acc c => 10 * acc + (c.toNat - 48)) 0

/-- Python int(s) restricted to the strings these scripts feed it: succeeds
with the numeric value exactly when s is a nonempty all-digit string
(leading zeros allowed), and raises ValueError otherwise.  The scripts only
ever pass substrings of digit-and-dot strings, where this model is exact. -/
def pyInt (s : List Char) : Except PyErr Nat :=
  if s ≠ [] ∧ s.all Char.isDigit then .ok (digitsToNat s) else .error .valueError

/-- Python-style subscript on a list: IndexError when out of range. -/
def pyGet (l : List (List Char)) (i : Nat) : Except PyErr (List Char) :=
  match l[i]? with
  | some x => .ok x
  | none => .error .indexError

/-- Body of one iteration of the comparison loop of is_new_version_higher:
at index i, if the component strings differ, decide by integer comparison
(some result); if they are equal, fall through (none). -/
def cmpComponent (lhsParts rhsParts : List (List Char)) (i : Nat) :
    Except PyErr (Option Bool) :=
  match pyGet rhsParts i with
  | .error e => .error e
  | .ok r =>
    match pyGet lhsParts i with
    | .error e => .error e
    | .ok l =>
      if r ≠ l then
        match pyInt r with
        | .error e => .error e
        | .ok rv =>
          match pyInt l with
          | .error e => .error e
          | .ok lv => .ok (some (decide (lv < rv)))
      else .ok none

/-- Shallow embedding of evalver.is_new_version_higher(lhs, rhs): split both
strings on the dot character with maxsplit 2, then for i in 0, 1, 2 return
int(rhs[i]) > int(lhs[i]) at the first i where the component strings differ;
false when no index decides. -/
def is_new_version_higher (lhs rhs : List Char) : Except PyErr Bool :=
  match cmpComponent (pySplit '.' 2 lhs) (pySplit '.' 2 rhs) 0 with
  | .error e => .error e
  | .ok (some b) => .ok b
  | .ok none =>
    match cmpComponent (pySplit '.' 2 lhs) (pySplit '.' 2 rhs) 1 with
    | .error e => .error e
    | .ok (some b) => .ok b
    | .ok none =>
      match cmpComponent (pySplit '.' 2 lhs) (pySplit '.' 2 rhs) 2 with
      | .error e => .error e
      | .ok (some b) => .ok b
      | .ok none => .ok false

-- The Python unit tests of is_new_version_higher, replayed.
example : is_new_version_higher "1.0.0".toList "2.0.0".toList = .ok true := by decide
example : is_new_version_higher "1.20.300".toList "1.20.300".toList = .ok false := by decide
example : is_new_version_higher "1.20.300".toList "1.20.301".toList = .ok true := by decide
example : is_new_version_higher "1.20.301".toList "1.21.300".toList = .ok true := by decide
example : is_new_version_higher "1.99.99".toList "2.0.0".toList = .ok true := by decide
example : is_new_version_higher "01.0.0".toList "02.0.0".toList = .ok true := by decide
example : is_new_version_higher "0.1.1".toList "0.1.1".toList = .ok false := by decide

/-- Shallow embedding of evalver.extract_crate_version(contents): the first
line whose text before the first equals sign trims to the key version
determines the result; its right-hand side is trimmed, and when nonempty its
first character is taken as the quote delimiter and stripped from both ends.
An empty right-hand side yields None, and so does exhausting the lines. -/
def extract_crate_version : List (List Char) → Option (List Char)
  | [] => none
  | line :: rest =>
    match pySplit '=' 1 line with
    | [lhs, rhs] =>
      if pyStrip lhs = "version".toList then
        match pyStrip rhs with
        | [] => none
        | q :: _ => some (pyStripChar q (pyStrip rhs))
      else extract_crate_version rest
    | _ => extract_crate_version rest

/-- Worker for splitlines: acc holds the current line reversed. -/
def splitlinesGo (acc : List Char) : List Char → List (List Char)
  | [] => [acc.reverse]
  | '\r' :: '\n' :: rest =>
    acc.reverse :: (match rest with | [] => [] | _ => splitlinesGo [] rest)
  | '\r' :: rest =>
    acc.reverse :: (match rest with | [] => [] | _ => splitlinesGo [] rest)
  | '\n' :: rest =>
    acc.reverse :: (match rest with | [] => [] | _ => splitlinesGo [] rest)
  | c :: rest => splitlinesGo (c :: acc) rest

/-- Python str.splitlines() on the line terminators that can occur in these
inputs: a newline, a carriage return, or a carriage return followed by a
newline each end a line, and a terminator at the very end of the string does
not open a final empty line. -/
def splitlines (s : List Char) : List (List Char) :=
  match s with
  | [] => []
  | _ => splitlinesGo [] s

/-- Removal of one leading letter v or V from a tag, as done by the check
tag.lower().startswith(v) followed by tag = tag[1:]. -/
def stripLeadingV : List Char → List Char
  | [] => []
  | c :: cs => if c = 'v' ∨ c = 'V' then cs else c :: cs

/-- Membership in the allowed character list of
extract_latest_released_version: the ten decimal digits and the dot. -/
def isVersionChar (c : Char) : Bool :=
  c.isDigit || c = '.'

/-- Shape filter applied to each tag after the leading v is removed: exactly
two dots, and every character a digit or a dot (the for-else loop). -/
def validShape (tag : List Char) : Bool :=
  (tag.countP (· = '.')) = 2 && tag.all isVersionChar

/-- Loop of extract_latest_released_version over the tag lines, threading
the current highest candidate: a line surviving the shape filter replaces
the candidate exactly when is_new_version_higher says it is higher; an
exception escaping that comparison escapes the loop. -/
def findHighest : List (List Char) → List Char → Except PyErr (List Char)
  | [], highest => .ok highest
  | line :: rest, highest =>
    if validShape (stripLeadingV line) then
      match is_new_version_higher highest (stripLeadingV line) with
      | .error e => .error e
      | .ok true => findHighest rest (stripLeadingV line)
      | .ok false => findHighest rest highest
    else findHighest rest highest

/-- Shallow embedding of evalver.extract_latest_released_version(tags):
strip the raw listing, walk its lines keeping the highest valid tag starting
from the sentinel 0.0.0, and return None exactly when the final candidate is
the literal string 0.0.0. -/
def extract_latest_released_version (tags : List Char) :
    Except PyErr (Option (List Char)) :=
  match findHighest (splitlines (pyStrip tags)) "0.0.0".toList with
  | .error e => .error e
  | .ok h => .ok (if h = "0.0.0".toList then none else some h)

-- The Python unit tests of extract_latest_released_version, replayed.
example : extract_latest_released_version "".toList = .ok none := by decide
example :
    extract_latest_released_version "\ntag1\ntag2\ntag3".toList = .ok none := by
  decide
example :
    extract_latest_released_version "\nv1.0.0\nv0.1.9\nv0.1.0".toList
      = .ok (some "1.0.0".toList) := by decide
example :
    extract_latest_released_version "\nva.b.c\nV2.0.0\nv3.0.0\n".toList
      = .ok (some "3.0.0".toList) := by decide
example :
    extract_latest_released_version "\nabcd\n1.0.0.\n02.123456789.00\n".toList
      = .ok (some "02.123456789.00".toList) := by decide

-- The Python unit tests of extract_crate_version, replayed (abridged to the
-- lines that drive the result).
example :
    extract_crate_version
      ["[package]".toList, "name = \"orbit\"".toList,
       "version = \"1.0.0\"".toList, "edition = \"2018\"".toList]
      = some "1.0.0".toList := by decide
example :
    extract_crate_version
      ["[package]".toList, "name = \"orbit\"".toList,
       "edition = \"2018\"".toList,
       "tokio = \x7b version = \"1\", features = [\"full\"] \x7d".toList]
      = none := by decide
example :
    extract_crate_version ["version = \"\"".toList] = some [] := by decide
example :
    extract_crate_version ["version=\"1.0.0\"".toList]
      = some "1.0.0".toList := by decide
example :
    extract_crate_version ["version = \x271.0.0\x27".toList]
      = some "1.0.0".toList := by decide

/-- Decides whether needle occurs as a contiguous substring of the second
argument, matching the test count(needle) == 0 in reverse. -/
def hasSubstring (needle : List Char) : List Char → Bool
  | [] => needle.isEmpty
  | c :: rest => needle.isPrefixOf (c :: rest) || hasSubstring needle rest

/-- Python str.lower() on the ASCII inputs of these scripts. -/
def pyLower (s : List Char) : List Char :=
  s.map Char.toLower

/-- Shallow embedding of autocl.is_finalized(version_header): true exactly
when the lowercased header does not contain the word unreleased. -/
def is_finalized (version_header : List Char) : Bool :=
  !(hasSubstring "unreleased".toList (pyLower version_header))

/-- Shallow embedding of autocl.versions_match(requested_version,
version_header): drop the first two characters of the header, trim, take
the first whitespace-delimited token (an IndexError when nothing remains),
drop one leading v or V, and compare for literal string equality. -/
def versions_match (requested_version version_header : List Char) :
    Except PyErr Bool :=
  let vh := pyStrip (version_header.drop 2)
  match vh with
  | [] => .error .indexError
  | _ =>
    let version := stripLeadingV (vh.takeWhile (fun c => !(isPySpace c)))
    .ok (decide (version = requested_version))

/-- Shallow embedding of autocl.get_version_header(contents): the first line
starting with the three-character marker, or None. -/
def get_version_header : List (List Char) → Option (List Char)
  | [] => none
  | line :: rest =>
    if "## ".toList.isPrefixOf line then some line
    else get_version_header rest

/-- Loop of extract_recent_version_changes: a marker line toggles the
recording flag and ends the walk when the flag falls back to false; other
lines are appended to the output while the flag is set. -/
def changesGo : List (List Char) → Bool → List Char
  | [], _ => []
  | line :: rest, recording =>
    if "## ".toList.isPrefixOf line then
      if recording then [] else changesGo rest true
    else if recording then line ++ changesGo rest recording
    else changesGo rest recording

/-- Shallow embedding of autocl.extract_recent_version_changes(contents):
the concatenation of the lines recorded between the first two marker lines,
trimmed at both ends. -/
def extract_recent_version_changes (contents : List (List Char)) : List Char :=
  pyStrip (changesGo contents false)

/-- Outcome of the autocl.main() validation pipeline on in-memory changelog
contents: one of the four scripted failure exits, success with the extracted
body, or an uncaught Python exception. -/
inductive ClOutcome where
  | noEntry
  | versionMismatch
  | notFinalized
  | emptyChangelog
  | success (info : List Char)
  | pythonException (e : PyErr)
deriving DecidableEq, Repr

/-- Shallow embedding of the validation pipeline of autocl.main(), from the
point where the changelog contents have been read: locate the most recent
version header, compare its version token with the requested one, check the
finalized flag, and require a nonempty extracted body. -/
def changelog_pipeline (current_version : List Char)
    (contents : List (List Char)) : ClOutcome :=
  match get_version_header contents with
  | none => .noEntry
  | some version_header =>
    match versions_match current_version version_header with
    | .error e => .pythonException e
    | .ok false => .versionMismatch
    | .ok true =>
      if is_finalized version_header = false then .notFinalized
      else if (extract_recent_version_changes contents).length = 0 then
        .emptyChangelog
      else .success (extract_recent_version_changes contents)

/-- Diagnostic message printed by autocl.main() for each failing outcome,
verbatim from the script (the successful outcome prints the body instead). -/
def clMessage (current_version : List Char) : ClOutcome → Option (List Char)
  | .noEntry => some "error: no version entry found in changelog".toList
  | .versionMismatch =>
    some ("error: changelog is not sync with Cargo crate manifest version ".toList
      ++ current_version)
  | .notFinalized =>
    some ("error: most recent changelog version entry ".toList
      ++ current_version ++ " is marked as \x27unreleased\x27".toList)
  | .emptyChangelog =>
    some ("error: document changes before releasing version ".toList
      ++ current_version)
  | .success _ => none
  | .pythonException _ => none

-- The Python unit tests of versions_match, replayed.
example : versions_match "0.1.0".toList "## 0.1.0".toList = .ok true := by decide
example :
    versions_match "0.1.0".toList "## 0.1.0 - unreleased".toList = .ok true := by
  decide
example : versions_match "0.1.0".toList "## v0.1.0 ".toList = .ok true := by decide
example : versions_match "0.1.0".toList "## V0.1.0 ".toList = .ok true := by decide
example : versions_match "0.1.0".toList "## abc ".toList = .ok false := by decide
example : versions_match "0.1.1".toList "## 0.1.0".toList = .ok false := by decide

-- The Python unit tests of is_finalized, replayed.
example : is_finalized "## 0.1.0".toList = true := by decide
example : is_finalized "## 0.1.0 - ready".toList = true := by decide
example : is_finalized "## 0.1.0 unreleased".toList = false := by decide
example : is_finalized "## 0.1.0 UNRELEASED".toList = false := by decide

-- The Python unit tests of get_version_header, replayed.
example :
    get_version_header
      ["# Changelog".toList, "".toList, "## 0.1.1".toList, "".toList,
       "- change 1".toList, "- fix 1".toList, "".toList, "## 0.1.0".toList,
       "".toList, "- feature 1".toList, "- feature 2".toList]
      = some "## 0.1.1".toList := by decide
example :
    get_version_header
      ["# Changelog".toList, "".toList, "Here is some text ##.".toList]
      = none := by decide

-- The Python unit tests of extract_recent_version_changes, replayed.
example :
    extract_recent_version_changes
      ["# Changelog".toList, "".toList, "## 0.1.1".toList, "".toList,
       "- change 1".toList, "- fix 1".toList, "".toList, "## 0.1.0".toList,
       "".toList, "- feature 1".toList, "- feature 2".toList]
      = "- change 1- fix 1".toList := by decide
example :
    extract_recent_version_changes
      ["# Changelog".toList, "".toList, "## 0.1.1".toList,
       "Introduction.".toList, "### Changes".toList, "- change 1".toList,
       "- fix 1".toList, "".toList, "## 0.1.0".toList, "".toList,
       "- feature 1".toList, "- feature 2".toList]
      = "Introduction.### Changes- change 1- fix 1".toList := by decide
example :
    extract_recent_version_changes
      ["# Changelog".toList, "".toList, "## 0.1.1".toList, "\t".toList,
       " ".toList, "".toList, "## 0.1.0".toList, "".toList,
       "- feature 1".toList, "- feature 2".toList]
      = "".toList := by decide
example :
    extract_recent_version_changes
      ["# Changelog".toList, "".toList, "## 0.1.0 -".toList, "".toList,
       "- implements command-line interface".toList,
       "- adds `--upgrade` flag".toList, "".toList, "## 0.0.0".toList]
      = "- implements command-line interface- adds `--upgrade` flag".toList := by
  decide

/-! Canonical decimal strings and the arithmetic of digitsToNat. -/

/-- Canonical decimal spelling of a non-negative integer: nonempty, all
digits, and no leading zero unless the string is the single digit 0. -/
def canonNum : List Char → Bool
  | [] => false
  | c :: cs => (c :: cs).all Char.isDigit && (cs.isEmpty || !(decide (c = '0')))

theorem digit_bounds {c : Char} (h : c.isDigit = true) :
    48 ≤ c.toNat ∧ c.toNat ≤ 57 := by
  simp [Char.isDigit] at h
  exact h

theorem char_eq_of_toNat_eq {c d : Char} (h : c.toNat = d.toNat) : c = d :=
  Char.eq_of_val_eq (UInt32.ext h)

theorem digitsToNat_from (l : List Char) (acc : Nat) :
    l.foldl (fun a c => 10 * a + (c.toNat - 48)) acc
      = acc * 10 ^ l.length + digitsToNat l := by
  induction l generalizing acc with
  | nil => simp [digitsToNat]
  | cons c cs ih =>
    have hx : digitsToNat (c :: cs) = (c.toNat - 48) * 10 ^ cs.length
        + digitsToNat cs := by
      show List.foldl _ _ (c :: cs) = _
      rw [List.foldl_cons, ih]
      ring_nf
    rw [List.foldl_cons, ih, hx, List.length_cons]
    ring

theorem digitsToNat_cons (c : Char) (cs : List Char) :
    digitsToNat (c :: cs) = (c.toNat - 48) * 10 ^ cs.length + digitsToNat cs := by
  show List.foldl _ _ (c :: cs) = _
  rw [List.foldl_cons, digitsToNat_from]
  ring_nf

theorem digitsToNat_lt (l : List Char) (h : l.all Char.isDigit = true) :
    digitsToNat l < 10 ^ l.length := by
  induction l with
  | nil => simp [digitsToNat]
  | cons c cs ih =>
    simp only [List.all_cons, Bool.and_eq_true] at h
    have hc := digit_bounds h.1
    have hcs := ih h.2
    rw [digitsToNat_cons, List.length_cons]
    have h9 : c.toNat - 48 ≤ 9 := by omega
    calc (c.toNat - 48) * 10 ^ cs.length + digitsToNat cs
        ≤ 9 * 10 ^ cs.length + digitsToNat cs :=
          Nat.add_le_add_right (Nat.mul_le_mul_right _ h9) _
      _ < 9 * 10 ^ cs.length + 10 ^ cs.length := Nat.add_lt_add_left hcs _
      _ = 10 ^ (cs.length + 1) := by ring

theorem digitsToNat_ge (c : Char) (cs : List Char) (hc : c.isDigit = true)
    (h0 : c ≠ '0') : 10 ^ cs.length ≤ digitsToNat (c :: cs) := by
  rw [digitsToNat_cons]
  have hb := digit_bounds hc
  have h48 : c.toNat ≠ 48 := by
    intro hh
    exact h0 (char_eq_of_toNat_eq hh)
  have h1 : 1 ≤ c.toNat - 48 := by omega
  calc 10 ^ cs.length = 1 * 10 ^ cs.length := (Nat.one_mul _).symm
    _ ≤ (c.toNat - 48) * 10 ^ cs.length := Nat.mul_le_mul_right _ h1
    _ ≤ (c.toNat - 48) * 10 ^ cs.length + digitsToNat cs := Nat.le_add_right _ _

theorem base_unique {t d1 d2 r1 r2 : Nat} (h1 : r1 < t) (h2 : r2 < t)
    (h : d1 * t + r1 = d2 * t + r2) : d1 = d2 ∧ r1 = r2 := by
  have hd : d1 = d2 := by
    rcases Nat.lt_trichotomy d1 d2 with hlt | he | hgt
    · exfalso
      have hm : (d1 + 1) * t ≤ d2 * t := Nat.mul_le_mul_right _ hlt
      rw [Nat.add_mul, Nat.one_mul] at hm
      linarith
    · exact he
    · exfalso
      have hm : (d2 + 1) * t ≤ d1 * t := Nat.mul_le_mul_right _ hgt
      rw [Nat.add_mul, Nat.one_mul] at hm
      linarith
  subst hd
  exact ⟨rfl, by omega⟩

theorem digits_inj : ∀ {a b : List Char}, a.length = b.length →
    a.all Char.isDigit = true → b.all Char.isDigit = true →
    digitsToNat a = digitsToNat b → a = b
  | [], [], _, _, _, _ => rfl
  | c :: cs, d :: ds, hlen, ha, hb, h => by
    simp only [List.length_cons, Nat.succ.injEq] at hlen
    simp only [List.all_cons, Bool.and_eq_true] at ha hb
    rw [digitsToNat_cons, digitsToNat_cons, hlen] at h
    have hu := base_unique (digitsToNat_lt cs ha.2)
      (by rw [hlen]; exact digitsToNat_lt ds hb.2)
      (by rw [← hlen] at h; exact (by omega : (c.toNat - 48) * 10 ^ cs.length
        + digitsToNat cs = (d.toNat - 48) * 10 ^ cs.length + digitsToNat ds))
    have hc := digit_bounds ha.1
    have hd := digit_bounds hb.1
    have hcd : c = d := char_eq_of_toNat_eq (by omega)
    have htl : cs = ds := digits_inj hlen ha.2 hb.2 hu.2
    rw [hcd, htl]

theorem canon_digits {a : List Char} (h : canonNum a = true) :
    a ≠ [] ∧ a.all Char.isDigit = true := by
  match a with
  | [] => simp [canonNum] at h
  | c :: cs =>
    simp only [canonNum, Bool.and_eq_true] at h
    exact ⟨by simp, h.1⟩

theorem canonNum_inj {a b : List Char} (ha : canonNum a = true)
    (hb : canonNum b = true) (h : digitsToNat a = digitsToNat b) : a = b := by
  have key : ∀ {x y : List Char}, canonNum x = true → canonNum y = true →
      x.length < y.length → digitsToNat x < digitsToNat y := by
    intro x y hx hy hlen
    match y with
    | [] => simp [canonNum] at hy
    | d :: ds =>
      match ds with
      | [] =>
        exfalso
        simp only [List.length_cons, List.length_nil] at hlen
        have := (canon_digits hx).1
        have : x.length ≠ 0 := by
          intro hz
          exact this (List.length_eq_zero.mp hz)
        omega
      | e :: es =>
        have hall := (canon_digits hy).2
        simp only [List.all_cons, Bool.and_eq_true] at hall
        have hd0 : d ≠ '0' := by
          intro hdd
          subst hdd
          simp [canonNum] at hy
        calc digitsToNat x < 10 ^ x.length :=
              digitsToNat_lt x (canon_digits hx).2
          _ ≤ 10 ^ (e :: es).length := Nat.pow_le_pow_right (by omega)
              (by simpa [Nat.lt_succ_iff] using hlen)
          _ ≤ digitsToNat (d :: e :: es) := digitsToNat_ge d (e :: es)
              hall.1 hd0
  rcases Nat.lt_trichotomy a.length b.length with hlt | he | hgt
  · exact absurd h (Nat.ne_of_lt (key ha hb hlt))
  · exact digits_inj he (canon_digits ha).2 (canon_digits hb).2 h
  · exact absurd h.symm (Nat.ne_of_lt (key hb ha hgt))

theorem canon_zero {a : List Char} (ha : canonNum a = true)
    (h : digitsToNat a = 0) : a = ['0'] := by
  exact canonNum_inj ha (by decide) (by rw [h]; decide)

/-! Integer triples of three-component version strings and their
lexicographic order. -/

/-- Component that the embedded int() accepts: nonempty and all digits
(leading zeros permitted). -/
def digitsComp (l : List Char) : Bool :=
  !l.isEmpty && l.all Char.isDigit

/-- Version string of exactly three nonempty digit-only dot-separated
components (leading zeros permitted). -/
def version3 (s : List Char) : Bool :=
  match pySplit '.' 2 s with
  | [a, b, c] => digitsComp a && digitsComp b && digitsComp c
  | _ => false

/-- Version string whose three dot-separated components are canonical
decimal spellings (no leading zeros). -/
def canonical3 (s : List Char) : Bool :=
  match pySplit '.' 2 s with
  | [a, b, c] => canonNum a && canonNum b && canonNum c
  | _ => false

/-- Integer triple (major, minor, patch) of a version string, each component
read as a non-negative integer; (0, 0, 0) when the string does not split
into three components. -/
def vTriple (s : List Char) : Nat × Nat × Nat :=
  match pySplit '.' 2 s with
  | [a, b, c] => (digitsToNat a, digitsToNat b, digitsToNat c)
  | _ => (0, 0, 0)

/-- Strict lexicographic order on integer triples: major first, then minor,
then patch, each compared as an integer. -/
def vLt (x y : Nat × Nat × Nat) : Prop :=
  x.1 < y.1 ∨ (x.1 = y.1 ∧ (x.2.1 < y.2.1 ∨ (x.2.1 = y.2.1 ∧ x.2.2 < y.2.2)))

/-- Reflexive closure of the lexicographic order vLt. -/
def vLe (x y : Nat × Nat × Nat) : Prop :=
  vLt x y ∨ x = y

instance (x y : Nat × Nat × Nat) : Decidable (vLt x y) := by
  unfold vLt
  exact inferInstance

instance (x y : Nat × Nat × Nat) : Decidable (vLe x y) := by
  unfold vLe
  exact inferInstance

theorem vLe_refl (x : Nat × Nat × Nat) : vLe x x :=
  Or.inr rfl

theorem vLe_of_lt {x y : Nat × Nat × Nat} (h : vLt x y) : vLe x y :=
  Or.inl h

theorem vLe_trans {x y z : Nat × Nat × Nat} (h1 : vLe x y) (h2 : vLe y z) :
    vLe x z := by
  obtain ⟨a, b, c⟩ := x
  obtain ⟨d, e, f⟩ := y
  obtain ⟨g, i, j⟩ := z
  simp only [vLe, vLt, Prod.mk.injEq] at h1 h2 ⊢
  omega

theorem vLe_of_not_lt {x y : Nat × Nat × Nat} (h : ¬ vLt x y) : vLe y x := by
  obtain ⟨a, b, c⟩ := x
  obtain ⟨d, e, f⟩ := y
  simp only [vLe, vLt, Prod.mk.injEq] at h ⊢
  omega

theorem vLe_zero {x : Nat × Nat × Nat} (h : vLe x (0, 0, 0)) : x = (0, 0, 0) := by
  obtain ⟨a, b, c⟩ := x
  simp only [vLe, vLt, Prod.mk.injEq] at h ⊢
  omega

theorem pyInt_digits {a : List Char} (h : digitsComp a = true) :
    pyInt a = .ok (digitsToNat a) := by
  have h1 : a ≠ [] := by
    intro hh
    subst hh
    simp [digitsComp] at h
  have h2 : a.all Char.isDigit = true := by
    simp only [digitsComp, Bool.and_eq_true] at h
    exact h.2
  unfold pyInt
  rw [if_pos ⟨h1, h2⟩]

theorem canon_digitsComp {a : List Char} (h : canonNum a = true) :
    digitsComp a = true := by
  obtain ⟨h1, h2⟩ := canon_digits h
  match a, h1 with
  | c :: cs, _ =>
    simpa [digitsComp] using h2

theorem canonical3_elim {s : List Char} (h : canonical3 s = true) :
    ∃ a b c, pySplit '.' 2 s = [a, b, c] ∧ canonNum a = true ∧
      canonNum b = true ∧ canonNum c = true := by
  unfold canonical3 at h
  split at h
  next a b c heq =>
    simp only [Bool.and_eq_true] at h
    exact ⟨a, b, c, heq, h.1.1, h.1.2, h.2⟩
  next => simp at h

theorem cmpComponent_digits {lp rp : List (List Char)} {i : Nat}
    {l r : List Char} (hl : lp[i]? = some l) (hr : rp[i]? = some r)
    (hld : digitsComp l = true) (hrd : digitsComp r = true) :
    cmpComponent lp rp i = .ok (if r = l then none
      else some (decide (digitsToNat l < digitsToNat r))) := by
  by_cases hrl : r = l
  · simp [cmpComponent, pyGet, hl, hr, hrl]
  · simp [cmpComponent, pyGet, hl, hr, hrl, pyInt_digits hrd, pyInt_digits hld]

/-- Characterization of is_new_version_higher on version strings with
canonical components: it decides the strict lexicographic order of the two
integer triples. -/
theorem is_new_version_higher_canonical (lhs rhs : List Char)
    (hl : canonical3 lhs = true) (hr : canonical3 rhs = true) :
    is_new_version_higher lhs rhs
      = .ok (decide (vLt (vTriple lhs) (vTriple rhs))) := by
  obtain ⟨la, lb, lc, hsl, hla, hlb, hlc⟩ := canonical3_elim hl
  obtain ⟨ra, rb, rc, hsr, hra, hrb, hrc⟩ := canonical3_elim hr
  have htl : vTriple lhs = (digitsToNat la, digitsToNat lb, digitsToNat lc) := by
    unfold vTriple
    rw [hsl]
  have htr : vTriple rhs = (digitsToNat ra, digitsToNat rb, digitsToNat rc) := by
    unfold vTriple
    rw [hsr]
  have hne : ∀ x y : List Char, canonNum x = true → canonNum y = true →
      x ≠ y → digitsToNat x ≠ digitsToNat y := by
    intro x y hx hy hxy hv
    exact hxy (canonNum_inj hx hy hv)
  have c0 : cmpComponent [la, lb, lc] [ra, rb, rc] 0
      = .ok (if ra = la then none
        else some (decide (digitsToNat la < digitsToNat ra))) :=
    cmpComponent_digits rfl rfl (canon_digitsComp hla) (canon_digitsComp hra)
  have c1 : cmpComponent [la, lb, lc] [ra, rb, rc] 1
      = .ok (if rb = lb then none
        else some (decide (digitsToNat lb < digitsToNat rb))) :=
    cmpComponent_digits rfl rfl (canon_digitsComp hlb) (canon_digitsComp hrb)
  have c2 : cmpComponent [la, lb, lc] [ra, rb, rc] 2
      = .ok (if rc = lc then none
        else some (decide (digitsToNat lc < digitsToNat rc))) :=
    cmpComponent_digits rfl rfl (canon_digitsComp hlc) (canon_digitsComp hrc)
  unfold is_new_version_higher
  rw [hsl, hsr, htl, htr]
  by_cases h0 : ra = la
  · rw [if_pos h0] at c0
    by_cases h1 : rb = lb
    · rw [if_pos h1] at c1
      by_cases h2 : rc = lc
      · rw [if_pos h2] at c2
        simp only [c0, c1, c2]
        congr 1
        symm
        rw [decide_eq_false_iff_not]
        have e0 : digitsToNat ra = digitsToNat la := by rw [h0]
        have e1 : digitsToNat rb = digitsToNat lb := by rw [h1]
        have e2 : digitsToNat rc = digitsToNat lc := by rw [h2]
        simp only [vLt]
        omega
      · rw [if_neg h2] at c2
        simp only [c0, c1, c2]
        congr 1
        rw [decide_eq_decide]
        have := hne _ _ hlc hrc (fun hh => h2 hh.symm)
        have e0 : digitsToNat ra = digitsToNat la := by rw [h0]
        have e1 : digitsToNat rb = digitsToNat lb := by rw [h1]
        simp only [vLt]
        omega
    · rw [if_neg h1] at c1
      simp only [c0, c1]
      congr 1
      rw [decide_eq_decide]
      have := hne _ _ hlb hrb (fun hh => h1 hh.symm)
      have e0 : digitsToNat ra = digitsToNat la := by rw [h0]
      simp only [vLt]
      omega
  · rw [if_neg h0] at c0
    simp only [c0]
    congr 1
    rw [decide_eq_decide]
    have := hne _ _ hla hra (fun hh => h0 hh.symm)
    simp only [vLt]
    omega

/-! Behaviour of the tag scan on canonical tags. -/

/-- Candidate tags of a listing: its lines after the outer strip, each with
one leading v or V removed, restricted to those passing the shape filter. -/
def tagCandidates (tags : List Char) : List (List Char) :=
  ((splitlines (pyStrip tags)).map stripLeadingV).filter validShape

theorem breakAtSep_eq {sep : Char} :
    ∀ {s p q : List Char}, breakAtSep sep s = some (p, q) → s = p ++ sep :: q := by
  intro s
  induction s with
  | nil => intro p q h; simp [breakAtSep] at h
  | cons c cs ih =>
    intro p q h
    unfold breakAtSep at h
    by_cases hc : c = sep
    · rw [if_pos hc] at h
      obtain ⟨hp, hq⟩ := Prod.mk.injEq .. ▸ (Option.some.injEq .. ▸ h)
      subst hc
      rw [← hp, ← hq]
      rfl
    · rw [if_neg hc] at h
      match hb : breakAtSep sep cs with
      | none => rw [hb] at h; simp at h
      | some (p2, q2) =>
        rw [hb] at h
        simp only [Option.some.injEq, Prod.mk.injEq] at h
        obtain ⟨hp, hq⟩ := h
        rw [← hp, ← hq]
        simpa using ih hb

theorem pySplit_succ_some {sep : Char} {n : Nat} {s p q : List Char}
    (h : breakAtSep sep s = some (p, q)) :
    pySplit sep (n + 1) s = p :: pySplit sep n q := by
  rw [pySplit, h]

theorem pySplit_succ_none {sep : Char} {n : Nat} {s : List Char}
    (h : breakAtSep sep s = none) : pySplit sep (n + 1) s = [s] := by
  rw [pySplit, h]

theorem pySplit3_join {s a b c : List Char} (h : pySplit '.' 2 s = [a, b, c]) :
    s = a ++ '.' :: (b ++ '.' :: c) := by
  match hb : breakAtSep '.' s with
  | none =>
    rw [show (2 : Nat) = 1 + 1 from rfl, pySplit_succ_none hb] at h
    simp at h
  | some (p, q) =>
    rw [show (2 : Nat) = 1 + 1 from rfl, pySplit_succ_some hb] at h
    match hb2 : breakAtSep '.' q with
    | none =>
      rw [show (1 : Nat) = 0 + 1 from rfl, pySplit_succ_none hb2] at h
      simp at h
    | some (p2, q2) =>
      rw [show (1 : Nat) = 0 + 1 from rfl, pySplit_succ_some hb2, pySplit] at h
      simp only [List.cons.injEq, and_true] at h
      obtain ⟨h1, h2, h3⟩ := h
      subst h1 h2 h3
      rw [breakAtSep_eq hb, breakAtSep_eq hb2]

theorem canonical3_zero {s : List Char} (h : canonical3 s = true)
    (hz : vTriple s = (0, 0, 0)) : s = "0.0.0".toList := by
  obtain ⟨a, b, c, hs, ha, hb, hc⟩ := canonical3_elim h
  unfold vTriple at hz
  rw [hs] at hz
  simp only [Prod.mk.injEq] at hz
  obtain ⟨h1, h2, h3⟩ := hz
  have ea := canon_zero ha h1
  have eb := canon_zero hb h2
  have ec := canon_zero hc h3
  rw [pySplit3_join hs, ea, eb, ec]
  rfl

/-- Invariant of the findHighest scan when every surviving tag is canonical:
the scan succeeds, and its result is the running maximum, in the
lexicographic triple order, of the start candidate and the surviving tags. -/
theorem findHighest_canonical :
    ∀ (lines : List (List Char)) (cur : List Char),
    canonical3 cur = true →
    (∀ l ∈ lines, validShape (stripLeadingV l) = true →
      canonical3 (stripLeadingV l) = true) →
    ∃ h, findHighest lines cur = .ok h ∧ canonical3 h = true ∧
      (h = cur ∨ h ∈ (lines.map stripLeadingV).filter validShape) ∧
      vLe (vTriple cur) (vTriple h) ∧
      ∀ t ∈ (lines.map stripLeadingV).filter validShape,
        vLe (vTriple t) (vTriple h) := by
  intro lines
  induction lines with
  | nil =>
    intro cur hcur _
    exact ⟨cur, rfl, hcur, Or.inl rfl, vLe_refl _, by simp⟩
  | cons line rest ih =>
    intro cur hcur hall
    by_cases hv : validShape (stripLeadingV line) = true
    · have hc3 : canonical3 (stripLeadingV line) = true :=
        hall line (List.mem_cons_self ..) hv
      have hcmp := is_new_version_higher_canonical cur (stripLeadingV line)
        hcur hc3
      have hcands : ((line :: rest).map stripLeadingV).filter validShape
          = stripLeadingV line :: (rest.map stripLeadingV).filter validShape := by
        simp [hv]
      by_cases hd : vLt (vTriple cur) (vTriple (stripLeadingV line))
      · obtain ⟨h, hfind, hcan, hmem, hle, hmax⟩ :=
          ih (stripLeadingV line) hc3
            (fun l hl hvl => hall l (List.mem_cons_of_mem _ hl) hvl)
        refine ⟨h, ?_, hcan, ?_, ?_, ?_⟩
        · rw [findHighest, if_pos hv, hcmp, decide_eq_true hd]
          exact hfind
        · right
          rw [hcands]
          rcases hmem with he | hm
          · exact he ▸ List.mem_cons_self ..
          · exact List.mem_cons_of_mem _ hm
        · exact vLe_trans (vLe_of_lt hd) hle
        · intro t ht
          rw [hcands] at ht
          rcases List.mem_cons.mp ht with he | hm
          · exact he ▸ hle
          · exact hmax t hm
      · obtain ⟨h, hfind, hcan, hmem, hle, hmax⟩ :=
          ih cur hcur (fun l hl hvl => hall l (List.mem_cons_of_mem _ hl) hvl)
        refine ⟨h, ?_, hcan, ?_, hle, ?_⟩
        · rw [findHighest, if_pos hv, hcmp, decide_eq_false hd]
          exact hfind
        · rcases hmem with he | hm
          · exact Or.inl he
          · right
            rw [hcands]
            exact List.mem_cons_of_mem _ hm
        · intro t ht
          rw [hcands] at ht
          rcases List.mem_cons.mp ht with he | hm
          · exact he ▸ vLe_trans (vLe_of_not_lt hd) hle
          · exact hmax t hm
    · obtain ⟨h, hfind, hcan, hmem, hle, hmax⟩ :=
        ih cur hcur (fun l hl hvl => hall l (List.mem_cons_of_mem _ hl) hvl)
      have hcands : ((line :: rest).map stripLeadingV).filter validShape
          = (rest.map stripLeadingV).filter validShape := by
        simp [Bool.eq_false_iff.mpr hv]
      refine ⟨h, ?_, hcan, ?_, hle, ?_⟩
      · rw [findHighest, if_neg hv]
        exact hfind
      · rw [hcands]
        exact hmem
      · rw [hcands]
        exact hmax

theorem mem_tagCandidates {tags : List Char} {l : List Char}
    (hl : l ∈ splitlines (pyStrip tags))
    (hv : validShape (stripLeadingV l) = true) :
    stripLeadingV l ∈ tagCandidates tags :=
  List.mem_filter.mpr ⟨List.mem_map_of_mem _ hl, hv⟩

/-! Specification-side descriptions of the changelog operations, written
from the specification text, to be compared with the embedded code. -/

/-- Lines after the first marker line, or none when no marker line exists. -/
def afterFirstMarker : List (List Char) → Option (List (List Char))
  | [] => none
  | l :: rest =>
    if "## ".toList.isPrefixOf l then some rest
    else afterFirstMarker rest

/-- Body of the most recent changelog entry as the specification describes
it: the lines strictly between the first marker line and the next marker
line or end of document, concatenated with no separator and trimmed; empty
when no marker line exists. -/
def extractBodySpec (contents : List (List Char)) : List Char :=
  match afterFirstMarker contents with
  | none => []
  | some rest =>
    pyStrip (rest.takeWhile (fun l => !("## ".toList.isPrefixOf l))).flatten

/-- First whitespace-delimited token of a header line after dropping the
two-character marker and trimming. -/
def headerToken (version_header : List Char) : List Char :=
  (pyStrip (version_header.drop 2)).takeWhile (fun c => !(isPySpace c))

/-- Header-version equality as the specification describes it: the first
token, with one leading v or V dropped, must equal the requested version as
a literal string. -/
def versionsMatchSpec (requested_version version_header : List Char) : Bool :=
  decide (stripLeadingV (headerToken version_header) = requested_version)

/-- Validation pipeline as the specification describes it: the four checks
in their fixed order, over the specification-side operations. -/
def pipelineSpec (current_version : List Char)
    (contents : List (List Char)) : ClOutcome :=
  match get_version_header contents with
  | none => .noEntry
  | some header =>
    if !(versionsMatchSpec current_version header) then .versionMismatch
    else if hasSubstring "unreleased".toList (pyLower header) then .notFinalized
    else if extractBodySpec contents = [] then .emptyChangelog
    else .success (extractBodySpec contents)

/-- Trimmed right-hand side of the first manifest line whose key is the
literal word version, or none when no such line exists. -/
def firstVersionSplit : List (List Char) → Option (List Char)
  | [] => none
  | line :: rest =>
    match pySplit '=' 1 line with
    | [lhs, rhs] =>
      if pyStrip lhs = "version".toList then some (pyStrip rhs)
      else firstVersionSplit rest
    | _ => firstVersionSplit rest

/-- Quote stripping as the specification describes it: the first character
of the value is the quote delimiter and is removed from both ends. -/
def stripQuotes (r : List Char) : List Char :=
  match r with
  | [] => []
  | q :: _ => pyStripChar q r

theorem pyStrip_ne_nil {s : List Char} (h : ∃ c ∈ s, isPySpace c = false) :
    pyStrip s ≠ [] := by
  obtain ⟨c, hc, hcs⟩ := h
  unfold pyStrip
  intro hh
  rw [List.reverse_eq_nil_iff, List.dropWhile_eq_nil_iff] at hh
  have hcd : c ∈ s.dropWhile isPySpace := by
    rcases List.mem_append.mp
      ((List.takeWhile_append_dropWhile (p := isPySpace) (l := s)) ▸ hc)
      with ht | hd
    · exact absurd (List.mem_takeWhile_imp ht) (by simp [hcs])
    · exact hd
  exact absurd (hh c (List.mem_reverse.mpr hcd)) (by simp [hcs])

theorem versions_match_spec_eq (requested_version version_header : List Char)
    (h2 : (version_header.drop 2).any (fun c => !(isPySpace c)) = true) :
    versions_match requested_version version_header
      = .ok (versionsMatchSpec requested_version version_header) := by
  have hne : pyStrip (version_header.drop 2) ≠ [] := by
    apply pyStrip_ne_nil
    obtain ⟨c, hc, hcs⟩ := List.any_eq_true.mp h2
    exact ⟨c, hc, by simpa using hcs⟩
  unfold versions_match versionsMatchSpec headerToken
  match hv : pyStrip (version_header.drop 2) with
  | [] => exact absurd hv hne
  | c :: cs => rfl

theorem changesGo_true (contents : List (List Char)) :
    changesGo contents true
      = (contents.takeWhile (fun l => !("## ".toList.isPrefixOf l))).flatten := by
  induction contents with
  | nil => rfl
  | cons line rest ih =>
    by_cases hm : "## ".toList.isPrefixOf line = true
    · rw [changesGo, if_pos hm, List.takeWhile_cons, hm]
      rfl
    · have hm2 : "## ".toList.isPrefixOf line = false := Bool.eq_false_iff.mpr hm
      rw [changesGo, if_neg hm, ih, List.takeWhile_cons, hm2]
      rfl

theorem changesGo_false (contents : List (List Char)) :
    changesGo contents false
      = (match afterFirstMarker contents with
        | none => []
        | some rest =>
          (rest.takeWhile (fun l => !("## ".toList.isPrefixOf l))).flatten) := by
  induction contents with
  | nil => rfl
  | cons line rest ih =>
    by_cases hm : "## ".toList.isPrefixOf line = true
    · rw [changesGo, if_pos hm, afterFirstMarker, if_pos hm]
      exact changesGo_true rest
    · rw [changesGo, if_neg hm, afterFirstMarker, if_neg hm]
      exact ih

theorem extractChanges_eq_spec (contents : List (List Char)) :
    extract_recent_version_changes contents = extractBodySpec contents := by
  unfold extract_recent_version_changes extractBodySpec
  rw [changesGo_false]
  match afterFirstMarker contents with
  | none => rfl
  | some rest => rfl

theorem version3_elim {s : List Char} (h : version3 s = true) :
    ∃ a b c, pySplit '.' 2 s = [a, b, c] ∧ digitsComp a = true ∧
      digitsComp b = true ∧ digitsComp c = true := by
  unfold version3 at h
  split at h
  next a b c heq =>
    simp only [Bool.and_eq_true] at h
    exact ⟨a, b, c, heq, h.1.1, h.1.2, h.2⟩
  next => simp at h

theorem findHighest_mem :
    ∀ (lines : List (List Char)) (cur h : List Char),
    findHighest lines cur = .ok h →
    h = cur ∨ ∃ line ∈ lines, h = stripLeadingV line := by
  intro lines
  induction lines with
  | nil =>
    intro cur h hf
    left
    injection hf with hh
    exact hh.symm
  | cons line rest ih =>
    intro cur h hf
    rw [findHighest] at hf
    by_cases hv : validShape (stripLeadingV line) = true
    · rw [if_pos hv] at hf
      match hcmp : is_new_version_higher cur (stripLeadingV line) with
      | .error e =>
        rw [hcmp] at hf
        exact absurd hf (by simp)
      | .ok true =>
        rw [hcmp] at hf
        rcases ih _ _ hf with he | ⟨l2, hl2, he2⟩
        · exact Or.inr ⟨line, List.mem_cons_self .., he⟩
        · exact Or.inr ⟨l2, List.mem_cons_of_mem _ hl2, he2⟩
      | .ok false =>
        rw [hcmp] at hf
        rcases ih _ _ hf with he | ⟨l2, hl2, he2⟩
        · exact Or.inl he
        · exact Or.inr ⟨l2, List.mem_cons_of_mem _ hl2, he2⟩
    · rw [if_neg hv] at hf
      rcases ih _ _ hf with he | ⟨l2, hl2, he2⟩
      · exact Or.inl he
      · exact Or.inr ⟨l2, List.mem_cons_of_mem _ hl2, he2⟩

theorem getElem7_append {a : List Char} {x : Char} (b : List Char)
    (h : a[7]? = some x) : (a ++ b)[7]? = some x := by
  have hlen : 7 < a.length := by
    by_contra hc
    rw [List.getElem?_eq_none (Nat.le_of_not_lt hc)] at h
    exact absurd h (by simp)
  rw [List.getElem?_append, if_pos hlen]
  exact h

/-- Distinctness of the four failure diagnostics, whatever the requested
version string is. -/
def clMessagesDistinct (v : List Char) : Prop :=
  clMessage v .noEntry ≠ clMessage v .versionMismatch ∧
  clMessage v .noEntry ≠ clMessage v .notFinalized ∧
  clMessage v .noEntry ≠ clMessage v .emptyChangelog ∧
  clMessage v .versionMismatch ≠ clMessage v .notFinalized ∧
  clMessage v .versionMismatch ≠ clMessage v .emptyChangelog ∧
  clMessage v .notFinalized ≠ clMessage v .emptyChangelog

theorem clMessagesDistinct_holds (v : List Char) : clMessagesDistinct v := by
  have key : ∀ (m1 m2 : List Char) (x1 x2 : Char), m1[7]? = some x1 →
      m2[7]? = some x2 → x1 ≠ x2 →
      (some m1 : Option (List Char)) ≠ some m2 := by
    intro m1 m2 x1 x2 h1 h2 hx he
    injection he with he
    rw [he, h2] at h1
    injection h1 with h1
    exact hx h1.symm
  have i1 : ("error: no version entry found in changelog".toList)[7]?
      = some 'n' := by decide
  have i2 : ("error: changelog is not sync with Cargo crate manifest version ".toList
      ++ v)[7]? = some 'c' := getElem7_append v (by decide)
  have i3 : ("error: most recent changelog version entry ".toList ++ v
      ++ " is marked as \x27unreleased\x27".toList)[7]? = some 'm' :=
    getElem7_append _ (getElem7_append v (by decide))
  have i4 : ("error: document changes before releasing version ".toList
      ++ v)[7]? = some 'd' := getElem7_append v (by decide)
  exact ⟨key _ _ _ _ i1 i2 (by decide), key _ _ _ _ i1 i3 (by decide),
    key _ _ _ _ i1 i4 (by decide), key _ _ _ _ i2 i3 (by decide),
    key _ _ _ _ i2 i4 (by decide), key _ _ _ _ i3 i4 (by decide)⟩

/-- Guard excluding the pathological header consisting of the bare marker:
either no header exists, or the most recent header has a non-whitespace
character after the two-character marker. -/
def headerGuard (contents : List (List Char)) : Bool :=
  match get_version_header contents with
  | none => true
  | some header => (header.drop 2).any (fun c => !(isPySpace c))

theorem pipeline_eq_spec (v : List Char) (contents : List (List Char))
    (hguard : headerGuard contents = true) :
    changelog_pipeline v contents = pipelineSpec v contents := by
  unfold changelog_pipeline pipelineSpec
  rcases hg : get_version_header contents with _ | header
  · rfl
  · have hany : (header.drop 2).any (fun c => !(isPySpace c)) = true := by
      unfold headerGuard at hguard
      rw [hg] at hguard
      exact hguard
    simp only [hg]
    simp only [versions_match_spec_eq v header hany]
    by_cases hvm : versionsMatchSpec v header = true
    · rw [hvm]
      by_cases hu : hasSubstring "unreleased".toList (pyLower header) = true
      · have hf : is_finalized header = false := by
          unfold is_finalized
          rw [hu]
          rfl
        rw [hf, hu]
        rfl
      · have hu2 : hasSubstring "unreleased".toList (pyLower header) = false :=
          Bool.eq_false_iff.mpr hu
        have hf : is_finalized header = true := by
          unfold is_finalized
          rw [hu2]
          rfl
        rw [hf, hu2, extractChanges_eq_spec contents]
        by_cases he : extractBodySpec contents = []
        · rw [he]
          rfl
        · have hl : (extractBodySpec contents).length ≠ 0 := fun hh =>
            he (List.length_eq_zero.mp hh)
          rw [if_neg hl, if_neg he]
          rfl
    · have hvm2 : versionsMatchSpec v header = false :=
        Bool.eq_false_iff.mpr hvm
      rw [hvm2]
      rfl

/-! Claim theorems. -/

/-- C2, counterexample: the tag listing consisting of the single line 0.0.0
has a line that parses as a valid version (it is a candidate surviving the
shape filter), yet extract_latest_released_version returns none rather than
that version, because the function reuses 0.0.0 as its no-tags sentinel. -/
theorem C2_counterexample :
    extract_latest_released_version "0.0.0".toList = .ok none ∧
    "0.0.0".toList ∈ tagCandidates "0.0.0".toList := by
  constructor
  · decide
  · decide

/-- C2, amended: on listings whose surviving candidates are all canonical
(no leading zeros, no empty components), the scan never raises; it returns
none exactly when every candidate has the integer triple (0, 0, 0) — so a
listing whose only valid tag is 0.0.0 returns none, not the version — and
any returned value is a candidate whose triple is greatest in the
lexicographic order. -/
theorem C2_extract_latest_canonical (tags : List Char)
    (hall : ∀ t ∈ tagCandidates tags, canonical3 t = true) :
    (∃ r, extract_latest_released_version tags = .ok r)
    ∧ (extract_latest_released_version tags = .ok none ↔
        ∀ t ∈ tagCandidates tags, vTriple t = (0, 0, 0))
    ∧ (∀ h, extract_latest_released_version tags = .ok (some h) →
        h ∈ tagCandidates tags ∧
        ∀ t ∈ tagCandidates tags, vLe (vTriple t) (vTriple h)) := by
  have h000 : canonical3 "0.0.0".toList = true := by decide
  obtain ⟨h, hfind, hcan, hmem, hle, hmax⟩ :=
    findHighest_canonical (splitlines (pyStrip tags)) "0.0.0".toList h000
      (fun l hl hv => hall _ (mem_tagCandidates hl hv))
  have hres : extract_latest_released_version tags
      = .ok (if h = "0.0.0".toList then none else some h) := by
    unfold extract_latest_released_version
    rw [hfind]
  have hT0 : vTriple "0.0.0".toList = (0, 0, 0) := by decide
  refine ⟨⟨_, hres⟩, ⟨?_, ?_⟩, ?_⟩
  · intro hnone
    rw [hres] at hnone
    by_cases hh : h = "0.0.0".toList
    · intro t ht
      have := hmax t ht
      rw [hh, hT0] at this
      exact vLe_zero this
    · rw [if_neg hh] at hnone
      exact absurd hnone (by simp)
  · intro hz
    have hzt : vTriple h = (0, 0, 0) := by
      rcases hmem with he | hm
      · rw [he, hT0]
      · exact hz h hm
    rw [hres, if_pos (canonical3_zero hcan hzt)]
  · intro h2 hsome
    rw [hres] at hsome
    by_cases hh : h = "0.0.0".toList
    · rw [if_pos hh] at hsome
      exact absurd hsome (by simp)
    · rw [if_neg hh] at hsome
      simp only [Except.ok.injEq, Option.some.injEq] at hsome
      subst hsome
      refine ⟨?_, hmax⟩
      rcases hmem with he | hm
      · exact absurd he hh
      · exact hm

/-- C2, witness: the amended theorem applied to the two-line listing v1.0.0,
0.9.9, whose candidates are canonical. -/
theorem C2_witness :
    (∃ r, extract_latest_released_version "v1.0.0\n0.9.9".toList = .ok r)
    ∧ (extract_latest_released_version "v1.0.0\n0.9.9".toList = .ok none ↔
        ∀ t ∈ tagCandidates "v1.0.0\n0.9.9".toList, vTriple t = (0, 0, 0))
    ∧ (∀ h, extract_latest_released_version "v1.0.0\n0.9.9".toList
          = .ok (some h) →
        h ∈ tagCandidates "v1.0.0\n0.9.9".toList ∧
        ∀ t ∈ tagCandidates "v1.0.0\n0.9.9".toList,
          vLe (vTriple t) (vTriple h)) :=
  C2_extract_latest_canonical "v1.0.0\n0.9.9".toList (by decide)

/-- C1, counterexample: with lhs 01.0.0 and rhs 1.0.1 the rhs triple
(1, 0, 1) is strictly greater than the lhs triple (1, 0, 0) in the
lexicographic integer order, yet is_new_version_higher returns false: the
major components differ as strings while being numerically equal, and the
loop returns at that index instead of falling through to minor and patch. -/
theorem C1_counterexample :
    is_new_version_higher "01.0.0".toList "1.0.1".toList = .ok false ∧
    vLt (vTriple "01.0.0".toList) (vTriple "1.0.1".toList) := by
  constructor
  · decide
  · decide

/-- C1, amended: for version strings of exactly three nonempty digit-only
dot-separated components written without leading zeros, is_new_version_higher
returns ok true exactly when the integer triple (major, minor, patch) of rhs
is strictly greater than that of lhs in the lexicographic order with each
component compared as an integer. -/
theorem C1_lex_on_canonical (lhs rhs : List Char)
    (hl : canonical3 lhs = true) (hr : canonical3 rhs = true) :
    is_new_version_higher lhs rhs = .ok true ↔
      vLt (vTriple lhs) (vTriple rhs) := by
  rw [is_new_version_higher_canonical lhs rhs hl hr]
  simp

/-- C1, witness: the amended equivalence applied to 1.0.0 and 2.0.0. -/
theorem C1_witness :
    is_new_version_higher "1.0.0".toList "2.0.0".toList = .ok true ↔
      vLt (vTriple "1.0.0".toList) (vTriple "2.0.0".toList) :=
  C1_lex_on_canonical "1.0.0".toList "2.0.0".toList (by decide) (by decide)

/-- C3: evaluation at the failing input: the tag listing consisting of the
single line .. passes the two-dot and character-set filter, and the
comparison against the sentinel then raises ValueError from int() on the
empty first component — the function raises instead of returning an absent
value.  The second conjunct shows the related malformed input 1..2 does not
raise but is returned as the latest version. -/
theorem C3_malformed_tag_raises :
    extract_latest_released_version "..".toList = .error .valueError ∧
    extract_latest_released_version "1..2".toList
      = .ok (some "1..2".toList) := by
  constructor
  · decide
  · decide

/-- C4, counterexample: on the changelog whose only line is the bare
three-character marker, get_version_header returns that line and the
pipeline then raises IndexError inside versions_match, a fifth outcome
beside the four scripted failures and success. -/
theorem C4_counterexample :
    changelog_pipeline "1.0.0".toList ["## ".toList]
      = .pythonException .indexError := by decide

/-- C4, amended: provided the most recent version header (when one exists)
has a non-whitespace character after the two-character marker, the pipeline
produces exactly the outcome of the specification pipeline — the checks in
the fixed order noEntry, versionMismatch (literal first-token comparison),
notFinalized (case-insensitive unreleased substring), emptyChangelog
(trimmed body empty), else success with the body — and the four failure
diagnostics are pairwise distinct messages. -/
theorem C4_pipeline (v : List Char) (contents : List (List Char))
    (hguard : headerGuard contents = true) :
    changelog_pipeline v contents = pipelineSpec v contents ∧
    clMessagesDistinct v :=
  ⟨pipeline_eq_spec v contents hguard, clMessagesDistinct_holds v⟩

/-- C4, witness: the amended pipeline theorem applied to a concrete
changelog with header 1.0.0 and a nonempty body. -/
theorem C4_witness :
    changelog_pipeline "1.0.0".toList
        ["# Changelog".toList, "## 1.0.0".toList, "- a change".toList]
      = pipelineSpec "1.0.0".toList
        ["# Changelog".toList, "## 1.0.0".toList, "- a change".toList] ∧
    clMessagesDistinct "1.0.0".toList :=
  C4_pipeline "1.0.0".toList
    ["# Changelog".toList, "## 1.0.0".toList, "- a change".toList]
    (by decide)

/-- C5: for every changelog, extract_recent_version_changes equals the
specification-side description: the lines strictly between the first marker
line and the second one (or to end of document when only one marker line
exists), concatenated with no separator and trimmed at both ends; the empty
string when the section is blank or no marker exists. -/
theorem C5_extract_changes (contents : List (List Char)) :
    extract_recent_version_changes contents = extractBodySpec contents :=
  extractChanges_eq_spec contents

/-- C6: for a header line starting with the marker and containing a
non-whitespace token after the two-character marker, versions_match returns
exactly the literal string comparison of the first whitespace-delimited
token (marker dropped, trimmed, one leading v or V removed) against the
requested version. -/
theorem C6_versions_match_literal (requested header : List Char)
    (_h1 : "## ".toList.isPrefixOf header = true)
    (h2 : (header.drop 2).any (fun c => !(isPySpace c)) = true) :
    versions_match requested header
      = .ok (versionsMatchSpec requested header) :=
  versions_match_spec_eq requested header h2

/-- C6, witness: applied to header token 0.01.0 and requested version
0.1.0: the literal comparison rejects the pair even though the comparator
of evalver treats the two versions as equal in magnitude (neither compares
higher than the other). -/
theorem C6_witness :
    versions_match "0.1.0".toList "## 0.01.0".toList
      = .ok (versionsMatchSpec "0.1.0".toList "## 0.01.0".toList) ∧
    versionsMatchSpec "0.1.0".toList "## 0.01.0".toList = false ∧
    is_new_version_higher "0.01.0".toList "0.1.0".toList = .ok false ∧
    is_new_version_higher "0.1.0".toList "0.01.0".toList = .ok false :=
  ⟨C6_versions_match_literal "0.1.0".toList "## 0.01.0".toList
    (by decide) (by decide), by decide, by decide, by decide⟩

/-- C7: extract_crate_version returns, for the first line whose key before
the equals sign trims to the literal word version, the trimmed right-hand
side with its first character stripped from both ends as the quote
delimiter (an empty quoted value giving the empty string), and none when no
such line exists; the hypothesis excludes the out-of-spec case of a version
line whose right-hand side is entirely empty. -/
theorem C7_crate_version (contents : List (List Char))
    (h : firstVersionSplit contents ≠ some []) :
    extract_crate_version contents
      = (firstVersionSplit contents).map stripQuotes := by
  induction contents with
  | nil => rfl
  | cons line rest ih =>
    match hs : pySplit '=' 1 line with
    | [lhs, rhs] =>
      by_cases hv : pyStrip lhs = "version".toList
      · have hfs : firstVersionSplit (line :: rest) = some (pyStrip rhs) := by
          unfold firstVersionSplit
          simp only [hs]
          rw [if_pos hv]
        have hrne : pyStrip rhs ≠ [] := by
          intro he
          exact h (by rw [hfs, he])
        unfold extract_crate_version
        simp only [hs]
        rw [if_pos hv, hfs]
        match hv2 : pyStrip rhs with
        | [] => exact absurd hv2 hrne
        | q :: tail => rfl
      · have hfs : firstVersionSplit (line :: rest) = firstVersionSplit rest := by
          unfold firstVersionSplit
          simp only [hs]
          rw [if_neg hv]
          cases rest <;> rfl
        unfold extract_crate_version
        simp only [hs]
        rw [if_neg hv, hfs]
        exact ih (fun he => h (hfs.trans he))
    | [] =>
      have hfs : firstVersionSplit (line :: rest) = firstVersionSplit rest := by
        unfold firstVersionSplit
        simp only [hs]
        cases rest <;> rfl
      unfold extract_crate_version
      simp only [hs]
      rw [hfs]
      exact ih (fun he => h (hfs.trans he))
    | [x] =>
      have hfs : firstVersionSplit (line :: rest) = firstVersionSplit rest := by
        unfold firstVersionSplit
        simp only [hs]
        cases rest <;> rfl
      unfold extract_crate_version
      simp only [hs]
      rw [hfs]
      exact ih (fun he => h (hfs.trans he))
    | x :: y :: z :: t =>
      have hfs : firstVersionSplit (line :: rest) = firstVersionSplit rest := by
        unfold firstVersionSplit
        simp only [hs]
        cases rest <;> rfl
      unfold extract_crate_version
      simp only [hs]
      rw [hfs]
      exact ih (fun he => h (hfs.trans he))

/-- C7, witness: a manifest whose first version line is double-quoted. -/
theorem C7_witness :
    extract_crate_version
        ["name = \"orbit\"".toList, "version = \"1.0.0\"".toList]
      = (firstVersionSplit
          ["name = \"orbit\"".toList, "version = \"1.0.0\"".toList]).map
          stripQuotes :=
  C7_crate_version
    ["name = \"orbit\"".toList, "version = \"1.0.0\"".toList] (by decide)

/-- C8: comparing any version string with itself returns false, for every
string that splits into three dot-separated components — in particular for
every string of exactly three digit-only dot-separated components. -/
theorem C8_irrefl (v : List Char) (h : (pySplit '.' 2 v).length = 3) :
    is_new_version_higher v v = .ok false := by
  obtain ⟨a, b, c, hs⟩ := List.length_eq_three.mp h
  have c0 : cmpComponent [a, b, c] [a, b, c] 0 = .ok none := by
    simp [cmpComponent, pyGet]
  have c1 : cmpComponent [a, b, c] [a, b, c] 1 = .ok none := by
    simp [cmpComponent, pyGet]
  have c2 : cmpComponent [a, b, c] [a, b, c] 2 = .ok none := by
    simp [cmpComponent, pyGet]
  unfold is_new_version_higher
  rw [hs]
  simp only [c0, c1, c2]

/-- C8, witness. -/
theorem C8_witness :
    is_new_version_higher "1.20.300".toList "1.20.300".toList = .ok false :=
  C8_irrefl "1.20.300".toList (by decide)

/-- C9: versions_match returns a boolean without raising for every header
line starting with the marker and containing a non-whitespace character
after the two-character marker; the bare marker line itself — which
get_version_header can nevertheless return as the most recent header —
instead raises IndexError, because no token remains to select. -/
theorem C9_versions_match_total (requested header : List Char)
    (_h1 : "## ".toList.isPrefixOf header = true)
    (h2 : (header.drop 2).any (fun c => !(isPySpace c)) = true) :
    (∃ b, versions_match requested header = .ok b) ∧
    versions_match requested "## ".toList = .error .indexError ∧
    get_version_header ["## ".toList] = some "## ".toList :=
  ⟨⟨versionsMatchSpec requested header,
    versions_match_spec_eq requested header h2⟩, rfl, by decide⟩

/-- C9, witness. -/
theorem C9_witness :
    (∃ b, versions_match "1.2.3".toList "## 1.2.3".toList = .ok b) ∧
    versions_match "1.2.3".toList "## ".toList = .error .indexError ∧
    get_version_header ["## ".toList] = some "## ".toList :=
  C9_versions_match_total "1.2.3".toList "## 1.2.3".toList
    (by decide) (by decide)

/-- C10: any version returned by extract_latest_released_version is one of
the lines of the stripped listing, verbatim except that one leading v or V
may have been removed — in particular leading zeros are preserved and no
renormalization happens. -/
theorem C10_verbatim (tags h : List Char)
    (hres : extract_latest_released_version tags = .ok (some h)) :
    ∃ line ∈ splitlines (pyStrip tags), h = stripLeadingV line := by
  unfold extract_latest_released_version at hres
  match hf : findHighest (splitlines (pyStrip tags)) "0.0.0".toList with
  | .error e =>
    rw [hf] at hres
    exact absurd hres (by simp)
  | .ok hh =>
    simp only [hf] at hres
    by_cases hz : hh = "0.0.0".toList
    · rw [if_pos hz] at hres
      exact absurd hres (by simp)
    · rw [if_neg hz] at hres
      simp only [Except.ok.injEq, Option.some.injEq] at hres
      subst hres
      rcases findHighest_mem _ _ _ hf with he | hmem
      · exact absurd he hz
      · exact hmem

/-- C10, witness: the tag 02.123456789.00 is returned spelled exactly as it
appears in the listing. -/
theorem C10_witness :
    ∃ line ∈ splitlines (pyStrip "02.123456789.00".toList),
      "02.123456789.00".toList = stripLeadingV line :=
  C10_verbatim "02.123456789.00".toList "02.123456789.00".toList (by decide)

end Orbit
